import Mathlib

/-!
Verification of the voxel-engine core (crates/engine): voxel packing,
collision maps, terrain grids, the chunk atlas slot mapping, the chunk
manager's residency/streaming logic, and the camera motion layer.

Embedding conventions:
* `u32` voxel words and `u8` bytes are embedded as `Nat`; the source's
  `v & 0xFF` style masking is kept as `&&&` on `Nat`.
* `i32` chunk coordinates are embedded as `Int` with `Int.ediv`/`Int.emod`
  for the source's `div_euclid`/`rem_euclid`.
* `f32` world positions are embedded as `ℚ` (every `f32` value is a
  rational; the position arithmetic the claims touch — floor, comparison,
  lerp — is exact on rationals).
* Camera angles (which flow through `sin`/`cos`/`atan2`) are embedded
  as `ℝ` in a separate section.
-/

namespace VoxelEngine

/-- `CHUNK_SIZE` from voxel.rs. -/
def CHUNK_SIZE : ℕ := 32

/-- `material_id` from voxel.rs: the low byte of a packed voxel word. -/
def material_id (voxel : ℕ) : ℕ := voxel &&& 0xFF

/-- `pack_voxel` from voxel.rs. -/
def pack_voxel (m p0 p1 fl : ℕ) : ℕ :=
  m ||| (p0 <<< 8) ||| (p1 <<< 16) ||| (fl <<< 24)

/-- `Chunk` from voxel.rs: the voxel array, indexed `z*1024 + y*32 + x`. -/
structure Chunk where
  voxels : List ℕ

/-- Cell lookup `chunk.voxels[z*CHUNK_SIZE*CHUNK_SIZE + y*CHUNK_SIZE + x]`
(total, with default 0 standing for the in-bounds-only source access). -/
def Chunk.cellAt (c : Chunk) (x y z : ℕ) : ℕ :=
  c.voxels.getD (z * CHUNK_SIZE * CHUNK_SIZE + y * CHUNK_SIZE + x) 0

/-- Modelled from the spec: `Chunk::is_empty`, whose body is not under
src/ (only its caller `ChunkManager::load_chunk` is). Spec §3: "A chunk
is *empty* iff every cell has `material_id == 0`." -/
def Chunk.is_empty (c : Chunk) : Bool :=
  c.voxels.all (fun v => material_id v == 0)

/-- `material_id` is the low byte. -/
lemma material_id_eq_mod (v : ℕ) : material_id v = v % 256 := by
  have h := Nat.and_pow_two_sub_one_eq_mod v 8
  norm_num at h
  simpa [material_id] using h

/-! ## Collision map (collision.rs) -/

/-- `CollisionMap` from collision.rs: a 4096-byte bitfield, one bit per
voxel of a 32³ chunk. -/
structure CollisionMap where
  bits : List ℕ

/-- The indexed loop body of `CollisionMap::from_voxels`: for each voxel
`v` at running index `i`, set bit `i % 8` of byte `i / 8` when the
material byte is non-zero. -/
def setSolidBits (bits : List ℕ) (voxels : List ℕ) (i : ℕ) : List ℕ :=
  match voxels with
  | [] => bits
  | v :: rest =>
    setSolidBits
      (if material_id v ≠ 0 then
        bits.set (i / 8) (bits.getD (i / 8) 0 ||| (1 <<< (i % 8)))
      else bits)
      rest (i + 1)

/-- `CollisionMap::from_voxels` from collision.rs. -/
def CollisionMap.from_voxels (voxels : List ℕ) : CollisionMap :=
  ⟨setSolidBits (List.replicate 4096 0) voxels 0⟩

/-- `CollisionMap::is_solid` from collision.rs: bounds-checked bit test. -/
def CollisionMap.is_solid (m : CollisionMap) (x y z : ℤ) : Bool :=
  if x < 0 || x ≥ 32 || y < 0 || y ≥ 32 || z < 0 || z ≥ 32 then
    false
  else
    let idx := z.toNat * CHUNK_SIZE * CHUNK_SIZE + y.toNat * CHUNK_SIZE + x.toNat
    (m.bits.getD (idx / 8) 0 >>> (idx % 8)) &&& 1 == 1

lemma length_setSolidBits (voxels : List ℕ) (bits : List ℕ) (i : ℕ) :
    (setSolidBits bits voxels i).length = bits.length := by
  induction voxels generalizing bits i with
  | nil => rfl
  | cons v rest ih =>
    rw [setSolidBits]
    split
    · rw [ih]; exact List.length_set ..
    · exact ih ..

/-- Bit extraction as used by `is_solid` agrees with `Nat.testBit`. -/
lemma shiftRight_and_one_eq_one (b k : ℕ) :
    ((b >>> k) &&& 1 = 1) ↔ b.testBit k = true := by
  have h1 : (b >>> k) &&& 1 = (b >>> k) % 2 := by
    simpa using Nat.and_pow_two_sub_one_eq_mod (b >>> k) 1
  simp [h1, Nat.shiftRight_eq_div_pow, Nat.testBit_to_div_mod]

lemma getD_set_self (l : List ℕ) (j a : ℕ) (h : j < l.length) :
    (l.set j a).getD j 0 = a := by
  rw [List.getD_eq_getElem?_getD, List.getElem?_set_eq h, Option.getD_some]

lemma getD_set_ne (l : List ℕ) (i j a : ℕ) (h : i ≠ j) :
    (l.set i a).getD j 0 = l.getD j 0 := by
  rw [List.getD_eq_getElem?_getD, List.getElem?_set_ne h, ← List.getD_eq_getElem?_getD]

lemma testBit_one_shiftLeft (s r : ℕ) :
    (1 <<< s : ℕ).testBit r = true ↔ r = s := by
  rw [Nat.shiftLeft_eq, one_mul, Nat.testBit_two_pow]
  exact ⟨fun h => (beq_iff_eq.mp h).symm, fun h => beq_iff_eq.mpr h.symm⟩

/-- Bit-level characterisation of the `from_voxels` loop: bit `8*q + r`
of the final bitfield is set iff it was set initially or some processed
voxel lands on it with a non-zero material byte. -/
lemma setSolidBits_testBit (voxels : List ℕ) (i : ℕ) (bits : List ℕ)
    (hlen : bits.length = 4096) (hle : i + voxels.length ≤ 32768)
    (q r : ℕ) (hq : q < 4096) (hr : r < 8) :
    ((setSolidBits bits voxels i).getD q 0).testBit r = true ↔
      ((bits.getD q 0).testBit r = true ∨
        ∃ m, m < voxels.length ∧ i + m = 8 * q + r ∧
          material_id (voxels.getD m 0) ≠ 0) := by
  induction voxels generalizing bits i with
  | nil =>
    simp [setSolidBits]
  | cons v rest ih =>
    rw [List.length_cons] at hle
    rw [setSolidBits]
    by_cases hv : material_id v ≠ 0
    · rw [if_pos hv]
      have hi8 : i / 8 < 4096 := by omega
      have hset :
          (bits.set (i / 8) (bits.getD (i / 8) 0 ||| 1 <<< (i % 8))).length = 4096 := by
        rw [List.length_set]; exact hlen
      rw [ih _ _ hset (by omega)]
      have hnew : ∀ h : q = i / 8,
          ((bits.set (i / 8) (bits.getD (i / 8) 0 ||| 1 <<< (i % 8))).getD q 0) =
            bits.getD q 0 ||| 1 <<< (i % 8) := by
        intro h; subst h; exact getD_set_self _ _ _ (by omega)
      constructor
      · rintro (hb | ⟨m, hm, him, hsol⟩)
        · by_cases hqi : q = i / 8
          · rw [hnew hqi, Nat.testBit_or, Bool.or_eq_true] at hb
            rcases hb with hb | hb
            · left; exact hb
            · right
              refine ⟨0, by simp, ?_, by simpa using hv⟩
              have := testBit_one_shiftLeft (i % 8) r |>.mp hb
              omega
          · left
            rw [getD_set_ne _ _ _ _ (fun h => hqi h.symm)] at hb
            exact hb
        · right
          exact ⟨m + 1, by simp; omega, by omega, by simpa using hsol⟩
      · rintro (hb | ⟨m, hm, him, hsol⟩)
        · left
          by_cases hqi : q = i / 8
          · rw [hnew hqi, Nat.testBit_or, Bool.or_eq_true]
            left; exact hb
          · rw [getD_set_ne _ _ _ _ (fun h => hqi h.symm)]
            exact hb
        · rcases m with _ | m'
          · left
            have hq8 : q = i / 8 := by omega
            have hr8 : r = i % 8 := by omega
            rw [hnew hq8, Nat.testBit_or, Bool.or_eq_true]
            right
            exact (testBit_one_shiftLeft (i % 8) r).mpr hr8
          · right
            exact ⟨m', by simp at hm; omega, by omega, by simpa using hsol⟩
    · rw [if_neg hv]
      push_neg at hv
      rw [ih _ _ hlen (by omega)]
      constructor
      · rintro (hb | ⟨m, hm, him, hsol⟩)
        · left; exact hb
        · right; exact ⟨m + 1, by simp; omega, by omega, by simpa using hsol⟩
      · rintro (hb | ⟨m, hm, him, hsol⟩)
        · left; exact hb
        · rcases m with _ | m'
          · exact absurd hv (by simpa using hsol)
          · right
            exact ⟨m', by simp at hm; omega, by omega, by simpa using hsol⟩

/-- C5: for every 32³-cell voxel array, `is_solid (x,y,z)` on the built
collision map holds iff the cell at index `z*1024 + y*32 + x` has a
non-zero `material_id`, for all in-range coordinates; any query with a
coordinate outside `[0,32)` returns `false`. -/
theorem C5_collision_map_correct (voxels : List ℕ) (hlen : voxels.length = 32768)
    (x y z : ℤ) :
    ((0 ≤ x ∧ x < 32 ∧ 0 ≤ y ∧ y < 32 ∧ 0 ≤ z ∧ z < 32) →
      ((CollisionMap.from_voxels voxels).is_solid x y z = true ↔
        material_id (voxels.getD (z.toNat * 1024 + y.toNat * 32 + x.toNat) 0) ≠ 0)) ∧
    (¬(0 ≤ x ∧ x < 32 ∧ 0 ≤ y ∧ y < 32 ∧ 0 ≤ z ∧ z < 32) →
      (CollisionMap.from_voxels voxels).is_solid x y z = false) := by
  constructor
  · rintro ⟨hx0, hx, hy0, hy, hz0, hz⟩
    have hguard : (x < 0 || x ≥ 32 || y < 0 || y ≥ 32 || z < 0 || z ≥ 32) = false := by
      simp only [Bool.or_eq_false_iff, decide_eq_false_iff_not, not_lt, not_le]
      omega
    rw [CollisionMap.is_solid, hguard]
    simp only [Bool.false_eq_true, if_false]
    have hidx : z.toNat * CHUNK_SIZE * CHUNK_SIZE + y.toNat * CHUNK_SIZE + x.toNat =
        z.toNat * 1024 + y.toNat * 32 + x.toNat := by
      simp [CHUNK_SIZE]; ring
    rw [hidx]
    set idx := z.toNat * 1024 + y.toNat * 32 + x.toNat with hidxdef
    have hlt : idx < 32768 := by
      have : z.toNat < 32 ∧ y.toNat < 32 ∧ x.toNat < 32 := by omega
      omega
    have hmain := setSolidBits_testBit voxels 0 (List.replicate 4096 0)
      (List.length_replicate _ _) (by omega) (idx / 8) (idx % 8) (by omega) (by omega)
    have hrepl : ((List.replicate 4096 (0 : ℕ)).getD (idx / 8) 0) = 0 := by
      rw [List.getD_eq_getElem?_getD, List.getElem?_replicate]
      split <;> rfl
    rw [hrepl] at hmain
    simp only [Nat.zero_testBit, Bool.false_eq_true, false_or] at hmain
    rw [CollisionMap.from_voxels]
    constructor
    · intro h
      have hbit := (shiftRight_and_one_eq_one _ _).mp (beq_iff_eq.mp h)
      rcases hmain.mp hbit with ⟨m, hm, hmi, hs⟩
      have hmeq : m = idx := by omega
      rwa [hmeq] at hs
    · intro h
      refine beq_iff_eq.mpr ((shiftRight_and_one_eq_one _ _).mpr ?_)
      exact hmain.mpr ⟨idx, by omega, by omega, h⟩
  · intro h
    have hguard : (x < 0 || x ≥ 32 || y < 0 || y ≥ 32 || z < 0 || z ≥ 32) = true := by
      simp only [Bool.or_eq_true, decide_eq_true_eq]
      omega
    rw [CollisionMap.is_solid, hguard]
    simp

/-- Witness for C5 at a concrete input: the all-air 32³ array, queried
in range at `(1,2,3)` and out of range at `(-1,0,0)`. -/
theorem C5_collision_map_correct_witness :
    (List.replicate 32768 (0 : ℕ)).length = 32768 ∧
    ((CollisionMap.from_voxels (List.replicate 32768 0)).is_solid 1 2 3 = true ↔
      material_id ((List.replicate 32768 (0 : ℕ)).getD
        ((3 : ℤ).toNat * 1024 + (2 : ℤ).toNat * 32 + (1 : ℤ).toNat) 0) ≠ 0) ∧
    (CollisionMap.from_voxels (List.replicate 32768 0)).is_solid (-1) 0 0 = false := by
  refine ⟨List.length_replicate _ _, ?_, ?_⟩
  · exact (C5_collision_map_correct (List.replicate 32768 0) (List.length_replicate _ _) 1 2 3).1
      (by norm_num)
  · exact (C5_collision_map_correct (List.replicate 32768 0) (List.length_replicate _ _) (-1) 0 0).2
      (by norm_num)

/-! ## Terrain grid (terrain_grid.rs) -/

/-- `TileSurface` from terrain_grid.rs (`u8` fields embedded as `ℕ`). -/
structure TileSurface where
  y : ℕ
  terrain_id : ℕ
  headroom : ℕ
deriving DecidableEq, Repr

/-- `material_to_terrain` from terrain_grid.rs: a 1:1 passthrough. -/
def material_to_terrain (m : ℕ) : ℕ := m

/-- `count_headroom` from terrain_grid.rs: the length of the maximal run
of air cells scanning `start_y..CHUNK_SIZE` upward. -/
def count_headroom (c : Chunk) (x start_y z : ℕ) : ℕ :=
  ((List.range' start_y (CHUNK_SIZE - start_y)).takeWhile
    (fun y => material_id (c.cellAt x y z) == 0)).length

/-- The inner `y` loop of `TerrainGrid::from_chunk` for one `(x, z)`
column: push a surface at each solid cell that is at the chunk top or
has air directly above. -/
def columnSurfaces (c : Chunk) (x z : ℕ) : List TileSurface :=
  (List.range CHUNK_SIZE).foldl
    (fun surfaces y =>
      let mat := material_id (c.cellAt x y z)
      if mat = 0 then surfaces
      else if y = CHUNK_SIZE - 1 then
        surfaces ++ [{ y := y, terrain_id := material_to_terrain mat, headroom := 255 }]
      else if material_id (c.cellAt x (y + 1) z) = 0 then
        surfaces ++ [{ y := y, terrain_id := material_to_terrain mat,
                       headroom := count_headroom c x (y + 1) z }]
      else surfaces)
    []

/-- `TerrainGrid` from terrain_grid.rs: one surface list per column,
indexed `z * CHUNK_SIZE + x`. -/
structure TerrainGrid where
  columns : List (List TileSurface)

/-- `TerrainGrid::from_chunk` from terrain_grid.rs: the `z`/`x` nested
loop pushing one column list each. -/
def TerrainGrid.from_chunk (c : Chunk) : TerrainGrid :=
  ⟨(List.range CHUNK_SIZE).flatMap
    (fun z => (List.range CHUNK_SIZE).map (fun x => columnSurfaces c x z))⟩

/-- `TerrainGrid::surfaces_at` from terrain_grid.rs. -/
def TerrainGrid.surfaces_at (g : TerrainGrid) (x z : ℕ) : List TileSurface :=
  g.columns.getD (z * CHUNK_SIZE + x) []

/-- `TerrainGrid::surface_count` from terrain_grid.rs. -/
def TerrainGrid.surface_count (g : TerrainGrid) : ℕ :=
  (g.columns.map List.length).sum

/-- One column of `TerrainGrid::to_bytes`: a count byte (`len as u8`)
followed by `(y, terrain_id, headroom)` triples. -/
def encodeColumn (col : List TileSurface) : List ℕ :=
  (col.length % 256) :: col.flatMap (fun s => [s.y, s.terrain_id, s.headroom])

/-- `TerrainGrid::to_bytes` from terrain_grid.rs. -/
def TerrainGrid.to_bytes (g : TerrainGrid) : List ℕ :=
  g.columns.flatMap encodeColumn

/-- The per-`y` step of the column scan, as an optional surface; used to
rewrite the `foldl` of `columnSurfaces` into a `filterMap`. -/
def surfaceStep (c : Chunk) (x z y : ℕ) : Option TileSurface :=
  let mat := material_id (c.cellAt x y z)
  if mat = 0 then none
  else if y = CHUNK_SIZE - 1 then
    some { y := y, terrain_id := material_to_terrain mat, headroom := 255 }
  else if material_id (c.cellAt x (y + 1) z) = 0 then
    some { y := y, terrain_id := material_to_terrain mat,
           headroom := count_headroom c x (y + 1) z }
  else none

lemma foldl_append_toList {α β : Type} (f : β → Option α) (l : List β) (init : List α) :
    l.foldl (fun acc y => acc ++ (f y).toList) init = init ++ l.filterMap f := by
  induction l generalizing init with
  | nil => simp
  | cons b t ih =>
    rw [List.foldl_cons, ih, List.filterMap_cons]
    cases f b <;> simp

lemma columnSurfaces_eq_filterMap (c : Chunk) (x z : ℕ) :
    columnSurfaces c x z = (List.range CHUNK_SIZE).filterMap (surfaceStep c x z) := by
  have hbody :
      (fun (surfaces : List TileSurface) (y : ℕ) =>
        let mat := material_id (c.cellAt x y z)
        if mat = 0 then surfaces
        else if y = CHUNK_SIZE - 1 then
          surfaces ++ [{ y := y, terrain_id := material_to_terrain mat, headroom := 255 }]
        else if material_id (c.cellAt x (y + 1) z) = 0 then
          surfaces ++ [{ y := y, terrain_id := material_to_terrain mat,
                         headroom := count_headroom c x (y + 1) z }]
        else surfaces) =
      fun acc y => acc ++ (surfaceStep c x z y).toList := by
    funext acc y
    simp only [surfaceStep]
    split_ifs <;> simp
  rw [columnSurfaces, hbody, foldl_append_toList, List.nil_append]

lemma surfaceStep_eq_some (c : Chunk) (x z y : ℕ) (s : TileSurface) :
    surfaceStep c x z y = some s ↔
      material_id (c.cellAt x y z) ≠ 0 ∧
      (y = 31 ∨ material_id (c.cellAt x (y + 1) z) = 0) ∧
      s = { y := y, terrain_id := material_to_terrain (material_id (c.cellAt x y z)),
            headroom :=
              if y = 31 then 255 else count_headroom c x (y + 1) z } := by
  have h31 : CHUNK_SIZE - 1 = 31 := by norm_num [CHUNK_SIZE]
  by_cases h1 : material_id (c.cellAt x y z) = 0
  · simp [surfaceStep, h1]
  · by_cases h2 : y = 31
    · simp only [surfaceStep, h31, if_neg h1, if_pos h2, Option.some_inj]
      constructor
      · intro h
        exact ⟨h1, Or.inl h2, h.symm⟩
      · rintro ⟨-, -, h⟩
        exact h.symm
    · by_cases h3 : material_id (c.cellAt x (y + 1) z) = 0
      · simp only [surfaceStep, h31, if_neg h1, if_neg h2, if_pos h3, Option.some_inj]
        constructor
        · intro h
          exact ⟨h1, Or.inr h3, h.symm⟩
        · rintro ⟨-, -, h⟩
          exact h.symm
      · simp only [surfaceStep, h31, if_neg h1, if_neg h2, if_neg h3, false_iff,
          reduceCtorEq]
        rintro ⟨-, h, -⟩
        rcases h with h | h
        · exact h2 h
        · exact h3 h

lemma surfaceStep_y (c : Chunk) (x z y : ℕ) (s : TileSurface)
    (h : surfaceStep c x z y = some s) : s.y = y := by
  rcases (surfaceStep_eq_some c x z y s).mp h with ⟨-, -, hs⟩
  rw [hs]

lemma mem_columnSurfaces (c : Chunk) (x z : ℕ) (s : TileSurface) :
    s ∈ columnSurfaces c x z ↔ ∃ y < CHUNK_SIZE, surfaceStep c x z y = some s := by
  rw [columnSurfaces_eq_filterMap, List.mem_filterMap]
  constructor
  · rintro ⟨y, hy, h⟩; exact ⟨y, List.mem_range.mp hy, h⟩
  · rintro ⟨y, hy, h⟩; exact ⟨y, List.mem_range.mpr hy, h⟩

lemma pairwise_columnSurfaces (c : Chunk) (x z : ℕ) :
    (columnSurfaces c x z).Pairwise (fun a b => a.y < b.y) := by
  rw [columnSurfaces_eq_filterMap]
  refine List.Pairwise.filterMap (surfaceStep c x z) ?_ (List.pairwise_lt_range _)
  intro a b hab sa hsa sb hsb
  rw [surfaceStep_y c x z a sa hsa, surfaceStep_y c x z b sb hsb]
  exact hab

/-- Spec of `takeWhile` length over an arithmetic range: all positions
before the cut satisfy the predicate and the position at the cut (when
inside the range) fails it. -/
lemma takeWhile_range'_length_spec (p : ℕ → Bool) (s n : ℕ) :
    (∀ k < ((List.range' s n).takeWhile p).length, p (s + k) = true) ∧
    (((List.range' s n).takeWhile p).length = n ∨
      p (s + ((List.range' s n).takeWhile p).length) = false) := by
  induction n generalizing s with
  | zero => exact ⟨fun k hk => absurd hk (by simp), Or.inl (by simp)⟩
  | succ n ih =>
    rw [List.range'_succ]
    by_cases hp : p s
    · rw [List.takeWhile_cons_of_pos hp]
      obtain ⟨ih1, ih2⟩ := ih (s + 1)
      constructor
      · intro k hk
        rcases k with _ | k'
        · simpa using hp
        · have := ih1 k' (by simpa using hk)
          rw [show s + (k' + 1) = s + 1 + k' by omega]
          exact this
      · rcases ih2 with h | h
        · left; simp [h]
        · right
          rw [List.length_cons, show s + (((List.range' (s+1) n).takeWhile p).length + 1) =
            s + 1 + ((List.range' (s+1) n).takeWhile p).length by omega]
          exact h
    · rw [List.takeWhile_cons_of_neg hp]
      exact ⟨fun k hk => absurd hk (by simp), Or.inr (by simpa using hp)⟩

/-- `count_headroom` counts exactly the run of air cells from `start_y`
up: every counted cell is air, and the run stops at the chunk top or at
a solid cell. -/
lemma count_headroom_spec (c : Chunk) (x start_y z : ℕ) (hs : start_y ≤ 32) :
    (∀ k < count_headroom c x start_y z, material_id (c.cellAt x (start_y + k) z) = 0) ∧
    (start_y + count_headroom c x start_y z = 32 ∨
      material_id (c.cellAt x (start_y + count_headroom c x start_y z) z) ≠ 0) := by
  obtain ⟨h1, h2⟩ := takeWhile_range'_length_spec
    (fun y => material_id (c.cellAt x y z) == 0) start_y (CHUNK_SIZE - start_y)
  rw [count_headroom]
  constructor
  · intro k hk
    have := h1 k hk
    simpa using this
  · rcases h2 with h | h
    · left
      rw [h]
      norm_num [CHUNK_SIZE]
      omega
    · right
      simpa using h

/-- Flattening an `n × m` nested loop into one list indexes it by
`i = z * m + x` with `x = i % m`, `z = i / m`. -/
lemma range_flatMap_map {β : Type} (n m : ℕ) (f : ℕ → ℕ → β) :
    (List.range n).flatMap (fun z => (List.range m).map (fun x => f x z)) =
      (List.range (n * m)).map (fun i => f (i % m) (i / m)) := by
  induction n with
  | zero => simp
  | succ n ih =>
    rw [List.range_succ, List.flatMap_append, ih, List.flatMap_cons, List.flatMap_nil,
      List.append_nil, show (n + 1) * m = n * m + m by ring, List.range_add,
      List.map_append, List.map_map]
    congr 1
    refine List.map_congr_left ?_
    intro j hj
    have hjm : j < m := List.mem_range.mp hj
    have h1 : (n * m + j) % m = j := by
      rw [Nat.mul_comm, Nat.mul_add_mod]
      exact Nat.mod_eq_of_lt hjm
    have h2 : (n * m + j) / m = n := by
      rcases Nat.eq_zero_or_pos m with hm | hm
      · omega
      · rw [Nat.add_comm, Nat.mul_comm, Nat.add_mul_div_left _ _ hm,
          Nat.div_eq_of_lt hjm, Nat.zero_add]
    simp only [Function.comp_apply]
    rw [h1, h2]

/-- `surfaces_at` on a grid built by `from_chunk` returns exactly the
column scan for `(x, z)`. -/
lemma surfaces_at_from_chunk (c : Chunk) (x z : ℕ) (hx : x < CHUNK_SIZE)
    (hz : z < CHUNK_SIZE) :
    (TerrainGrid.from_chunk c).surfaces_at x z = columnSurfaces c x z := by
  rw [TerrainGrid.surfaces_at, TerrainGrid.from_chunk, range_flatMap_map,
    List.getD_eq_getElem?_getD, List.getElem?_map, List.getElem?_range
      (by simp only [CHUNK_SIZE] at *; omega)]
  simp only [Option.map_some', Option.getD_some]
  have h1 : (z * CHUNK_SIZE + x) % CHUNK_SIZE = x := by
    simp only [CHUNK_SIZE] at *; omega
  have h2 : (z * CHUNK_SIZE + x) / CHUNK_SIZE = z := by
    simp only [CHUNK_SIZE] at *; omega
  rw [h1, h2]

/-- C6: for every chunk and every column `(x, z)`, the surface list is
strictly increasing in `y`; a surface at height `y` exists iff the cell
is solid and at the chunk top or with air above; each surface carries the
material-derived terrain id, and its headroom is 255 at the top and
otherwise counts exactly the consecutive air cells above it. -/
theorem C6_terrain_grid_surfaces (c : Chunk) (x z : ℕ) (hx : x < 32) (hz : z < 32) :
    ((TerrainGrid.from_chunk c).surfaces_at x z).Pairwise (fun a b => a.y < b.y) ∧
    (∀ y < 32, (∃ s ∈ (TerrainGrid.from_chunk c).surfaces_at x z, s.y = y) ↔
      (material_id (c.cellAt x y z) ≠ 0 ∧
        (y = 31 ∨ material_id (c.cellAt x (y + 1) z) = 0))) ∧
    (∀ s ∈ (TerrainGrid.from_chunk c).surfaces_at x z,
      material_id (c.cellAt x s.y z) ≠ 0 ∧
      (s.y = 31 ∨ material_id (c.cellAt x (s.y + 1) z) = 0) ∧
      s.terrain_id = material_to_terrain (material_id (c.cellAt x s.y z)) ∧
      (s.y = 31 → s.headroom = 255) ∧
      (s.y ≠ 31 →
        s.headroom = count_headroom c x (s.y + 1) z ∧
        (∀ k < s.headroom, material_id (c.cellAt x (s.y + 1 + k) z) = 0) ∧
        (s.y + 1 + s.headroom = 32 ∨
          material_id (c.cellAt x (s.y + 1 + s.headroom) z) ≠ 0))) := by
  have hcs : (32 : ℕ) = CHUNK_SIZE := by norm_num [CHUNK_SIZE]
  rw [surfaces_at_from_chunk c x z (by omega) (by omega)]
  refine ⟨pairwise_columnSurfaces c x z, ?_, ?_⟩
  · intro y hy
    constructor
    · rintro ⟨s, hs, hsy⟩
      obtain ⟨y', hy', hstep⟩ := (mem_columnSurfaces c x z s).mp hs
      obtain ⟨hm, hcond, hseq⟩ := (surfaceStep_eq_some c x z y' s).mp hstep
      have : s.y = y' := by rw [hseq]
      subst hsy
      rw [this] at *
      exact ⟨hm, hcond⟩
    · rintro ⟨hm, hcond⟩
      refine ⟨{ y := y, terrain_id := material_to_terrain (material_id (c.cellAt x y z)),
                headroom := if y = 31 then 255 else count_headroom c x (y + 1) z },
        ?_, rfl⟩
      refine (mem_columnSurfaces c x z _).mpr ⟨y, by omega, ?_⟩
      exact (surfaceStep_eq_some c x z y _).mpr ⟨hm, hcond, rfl⟩
  · intro s hs
    obtain ⟨y', hy', hstep⟩ := (mem_columnSurfaces c x z s).mp hs
    obtain ⟨hm, hcond, hseq⟩ := (surfaceStep_eq_some c x z y' s).mp hstep
    have hsy : s.y = y' := by rw [hseq]
    subst hsy
    refine ⟨hm, hcond, by rw [hseq], ?_, ?_⟩
    · intro h31
      rw [hseq]
      simp [h31]
    · intro h31
      have hhr : s.headroom = count_headroom c x (s.y + 1) z := by
        rw [hseq]
        simp [h31]
      obtain ⟨hair, hstop⟩ := count_headroom_spec c x (s.y + 1) z
        (by simp only [CHUNK_SIZE] at hy'; omega)
      rw [← hhr] at hair hstop
      exact ⟨hhr, hair, hstop⟩

/-- Witness for C6 at a concrete input: the empty chunk at column
`(0, 0)` (the conclusion is the theorem's conclusion instantiated). -/
theorem C6_terrain_grid_surfaces_witness :
    (0 : ℕ) < 32 ∧
    ((TerrainGrid.from_chunk ⟨[]⟩).surfaces_at 0 0).Pairwise (fun a b => a.y < b.y) := by
  refine ⟨by norm_num, (C6_terrain_grid_surfaces ⟨[]⟩ 0 0 (by norm_num) (by norm_num)).1⟩

/-! ## Terrain grid serialisation (C8) -/

/-- Follows the spec's words (§4.3): read `count` triples
`(y, terrain_id, headroom)`, returning the surfaces and the remaining
bytes. Spec-side decoder for the round-trip claim. -/
def decodeSurfaces : ℕ → List ℕ → Option (List TileSurface × List ℕ)
  | 0, bytes => some ([], bytes)
  | k + 1, yv :: tv :: hv :: bytes =>
    (decodeSurfaces k bytes).map
      (fun p => ({ y := yv, terrain_id := tv, headroom := hv } :: p.1, p.2))
  | _ + 1, _ => none

/-- Follows the spec's words (§4.3): read `n` columns, each one a count
byte followed by that many triples. Spec-side decoder. -/
def decodeColumns : ℕ → List ℕ → Option (List (List TileSurface) × List ℕ)
  | 0, bytes => some ([], bytes)
  | _ + 1, [] => none
  | n + 1, cnt :: bytes =>
    match decodeSurfaces cnt bytes with
    | none => none
    | some (col, rest) =>
      match decodeColumns n rest with
      | none => none
      | some (cols, rest2) => some (col :: cols, rest2)

/-- Follows the spec's words (§4.3): a full grid decodes as 1024 columns
consuming the entire byte stream. -/
def decodeTerrainGridSpec (bytes : List ℕ) : Option (List (List TileSurface)) :=
  match decodeColumns 1024 bytes with
  | some (cols, []) => some cols
  | _ => none

lemma decodeSurfaces_encode (col : List TileSurface) (rest : List ℕ) :
    decodeSurfaces col.length
      (col.flatMap (fun s => [s.y, s.terrain_id, s.headroom]) ++ rest) =
      some (col, rest) := by
  induction col with
  | nil => rfl
  | cons s t ih =>
    simp only [List.length_cons, List.flatMap_cons, List.cons_append, List.append_assoc,
      List.nil_append]
    rw [decodeSurfaces, ih]
    rfl

lemma decodeColumns_encode (cols : List (List TileSurface)) (rest : List ℕ)
    (hc : ∀ col ∈ cols, col.length < 256) :
    decodeColumns cols.length (cols.flatMap encodeColumn ++ rest) =
      some (cols, rest) := by
  induction cols with
  | nil => rfl
  | cons col t ih =>
    have h1 : col.length % 256 = col.length :=
      Nat.mod_eq_of_lt (hc col (List.mem_cons_self ..))
    simp only [List.length_cons, List.flatMap_cons, encodeColumn, List.cons_append,
      List.append_assoc]
    rw [decodeColumns, h1, decodeSurfaces_encode]
    simp only [ih (fun c hc' => hc c (List.mem_cons_of_mem _ hc'))]

lemma length_flatMap_triple (col : List TileSurface) :
    (col.flatMap (fun s => [s.y, s.terrain_id, s.headroom])).length = 3 * col.length := by
  induction col with
  | nil => rfl
  | cons s t ih =>
    simp only [List.flatMap_cons, List.length_append, List.length_cons, ih]
    simp
    ring

lemma toBytes_length (cols : List (List TileSurface)) :
    (cols.flatMap encodeColumn).length = cols.length + 3 * (cols.map List.length).sum := by
  induction cols with
  | nil => rfl
  | cons col t ih =>
    simp only [List.flatMap_cons, List.length_append, ih, encodeColumn,
      List.length_cons, length_flatMap_triple, List.map_cons, List.sum_cons]
    ring

/-- C8: `to_bytes` emits one count byte per column followed by its
`(y, terrain_id, headroom)` triples, in column order; the total length is
`1024 + 3 * surface_count`; and the spec-format decoder recovers exactly
the original column lists. -/
theorem C8_to_bytes_roundtrip (g : TerrainGrid) (hlen : g.columns.length = 1024)
    (hc : ∀ col ∈ g.columns, col.length < 256) :
    g.to_bytes = g.columns.flatMap encodeColumn ∧
    g.to_bytes.length = 1024 + 3 * g.surface_count ∧
    decodeTerrainGridSpec g.to_bytes = some g.columns := by
  refine ⟨rfl, ?_, ?_⟩
  · rw [TerrainGrid.to_bytes, toBytes_length, hlen, TerrainGrid.surface_count]
  · rw [decodeTerrainGridSpec, TerrainGrid.to_bytes]
    have h := decodeColumns_encode g.columns [] hc
    rw [List.append_nil] at h
    rw [hlen] at h
    rw [h]

/-- Witness for C8 at a concrete input: the 1024-empty-column grid. -/
theorem C8_to_bytes_roundtrip_witness :
    (TerrainGrid.mk (List.replicate 1024 [])).columns.length = 1024 ∧
    (∀ col ∈ (TerrainGrid.mk (List.replicate 1024 [])).columns, col.length < 256) ∧
    decodeTerrainGridSpec (TerrainGrid.mk (List.replicate 1024 [])).to_bytes =
      some (TerrainGrid.mk (List.replicate 1024 [])).columns := by
  have h1 : (TerrainGrid.mk (List.replicate 1024 ([] : List TileSurface))).columns.length
      = 1024 := List.length_replicate _ _
  have h2 : ∀ col ∈ (TerrainGrid.mk (List.replicate 1024 ([] : List TileSurface))).columns,
      col.length < 256 := by
    intro col hcol
    have := List.eq_of_mem_replicate hcol
    rw [this]
    norm_num
  exact ⟨h1, h2, (C8_to_bytes_roundtrip _ h1 h2).2.2⟩

/-! ## Chunk atlas (render/chunk_atlas.rs) -/

/-- `glam::IVec3` (i32 vector), embedded over `ℤ`. -/
structure IVec3 where
  x : ℤ
  y : ℤ
  z : ℤ
deriving DecidableEq, Repr

/-- `glam::UVec3` (u32 vector), embedded over `ℕ`. -/
structure UVec3 where
  x : ℕ
  y : ℕ
  z : ℕ
deriving DecidableEq, Repr

/-- `glam::Vec3` (f32 vector), embedded over `ℚ`. -/
structure Vec3Q where
  x : ℚ
  y : ℚ
  z : ℚ
deriving DecidableEq, Repr

/-- `world_to_slot` from render/chunk_atlas.rs: Euclidean remainder per
axis, flattened `z`-major. -/
def world_to_slot (coord : IVec3) (atlas_slots : UVec3) : ℕ :=
  let sx : ℤ := atlas_slots.x
  let sy : ℤ := atlas_slots.y
  let sz : ℤ := atlas_slots.z
  ((coord.z.emod sz) * sx * sy + (coord.y.emod sy) * sx + (coord.x.emod sx)).toNat

/-- `ChunkSlotGpu` from render/chunk_atlas.rs (host-side shadow record). -/
structure ChunkSlotGpu where
  world_pos : IVec3
  flags : ℕ
deriving DecidableEq, Repr

/-- `ChunkAtlas` from render/chunk_atlas.rs, restricted to its host-side
state (the GPU texture and buffer handles carry no further logic). -/
structure ChunkAtlas where
  slots : List ChunkSlotGpu
  slots_per_axis : UVec3
deriving DecidableEq, Repr

/-- `ChunkAtlas::new`: all slot records empty (`flags = 0`). -/
def ChunkAtlas.new (slots_per_axis : UVec3) : ChunkAtlas :=
  { slots := List.replicate (slots_per_axis.x * slots_per_axis.y * slots_per_axis.z)
      { world_pos := ⟨0, 0, 0⟩, flags := 0 }
    slots_per_axis }

/-- `ChunkAtlas::upload_chunk`, host-side effect: set the slot record to
`{world_coord, flags = 1}` (the texel upload has no host-visible state). -/
def ChunkAtlas.upload_chunk (a : ChunkAtlas) (slot : ℕ) (world_coord : IVec3) :
    ChunkAtlas :=
  { a with slots := a.slots.set slot { world_pos := world_coord, flags := 1 } }

/-- `ChunkAtlas::clear_slot`: zero the `flags` of the slot record. -/
def ChunkAtlas.clear_slot (a : ChunkAtlas) (slot : ℕ) : ChunkAtlas :=
  { a with slots :=
      a.slots.set slot { a.slots.getD slot ⟨⟨0, 0, 0⟩, 0⟩ with flags := 0 } }

/-- C7: `world_to_slot` equals the spec's Euclidean-remainder formula
`wz*Sx*Sy + wy*Sx + wx`, and is invariant under translating the
coordinate by the atlas dimensions on every axis. -/
theorem C7_world_to_slot_formula (c : IVec3) (S : UVec3)
    (hx : 0 < S.x) (hy : 0 < S.y) (hz : 0 < S.z) :
    world_to_slot c S =
      (c.z.emod S.z).toNat * (S.x * S.y) + (c.y.emod S.y).toNat * S.x +
        (c.x.emod S.x).toNat ∧
    world_to_slot ⟨c.x + S.x, c.y + S.y, c.z + S.z⟩ S = world_to_slot c S := by
  have hxe : (0 : ℤ) ≤ c.x.emod S.x := Int.emod_nonneg _ (by exact_mod_cast hx.ne')
  have hye : (0 : ℤ) ≤ c.y.emod S.y := Int.emod_nonneg _ (by exact_mod_cast hy.ne')
  have hze : (0 : ℤ) ≤ c.z.emod S.z := Int.emod_nonneg _ (by exact_mod_cast hz.ne')
  constructor
  · rw [world_to_slot]
    have hcast :
        ((c.z.emod S.z) * S.x * S.y + (c.y.emod S.y) * S.x + (c.x.emod S.x) : ℤ) =
          (((c.z.emod S.z).toNat * (S.x * S.y) + (c.y.emod S.y).toNat * S.x +
            (c.x.emod S.x).toNat : ℕ) : ℤ) := by
      push_cast [Int.toNat_of_nonneg hxe, Int.toNat_of_nonneg hye,
        Int.toNat_of_nonneg hze]
      ring
    rw [hcast, Int.toNat_natCast]
  · have hsel : ∀ a b : ℤ, (a + b).emod b = a.emod b := fun a b => Int.add_emod_self
    rw [world_to_slot, world_to_slot]
    simp only [hsel]

/-- Witness for C7 at a concrete input: coordinate `(3,4,5)` with atlas
slots `(8,8,8)`. -/
theorem C7_world_to_slot_formula_witness :
    (0 < 8 ∧ 0 < 8 ∧ 0 < 8) ∧
    (world_to_slot ⟨3, 4, 5⟩ ⟨8, 8, 8⟩ =
      ((5 : ℤ).emod 8).toNat * (8 * 8) + ((4 : ℤ).emod 8).toNat * 8 +
        ((3 : ℤ).emod 8).toNat ∧
     world_to_slot ⟨3 + 8, 4 + 8, 5 + 8⟩ ⟨8, 8, 8⟩ = world_to_slot ⟨3, 4, 5⟩ ⟨8, 8, 8⟩) := by
  exact ⟨⟨by norm_num, by norm_num, by norm_num⟩,
    C7_world_to_slot_formula ⟨3, 4, 5⟩ ⟨8, 8, 8⟩ (by norm_num) (by norm_num) (by norm_num)⟩

/-! ## Camera animation (camera.rs), position side

The struct stores its easing curve as a plain function (`fn(f32) -> f32`
in the source); the built-in curves come from an external crate and are
not needed by any claim, so the function field is kept abstract here and
`linear_easing` (the identity, per the spec's `Linear` kind) is the only
concrete curve defined. -/

/-- `CameraAnimation` from camera.rs. -/
structure CameraAnimation where
  from_position : Vec3Q
  from_yaw : ℚ
  from_pitch : ℚ
  to_position : Vec3Q
  to_yaw : ℚ
  to_pitch : ℚ
  duration : ℚ
  elapsed : ℚ
  easing : ℚ → ℚ

/-- Modelled from the spec: `simple_easing::linear` (the `Linear` easing
kind), whose body is in an external crate; the spec and camera.rs's own
tests fix it as the identity on `[0,1]`. -/
def linear_easing : ℚ → ℚ := fun t => t

/-- `CameraAnimation::new` from camera.rs (taking the easing function
directly; the source maps an `EasingKind` to the function). -/
def CameraAnimation.new (from_position : Vec3Q) (from_yaw from_pitch : ℚ)
    (to_position : Vec3Q) (to_yaw to_pitch duration : ℚ) (easing : ℚ → ℚ) :
    CameraAnimation :=
  { from_position, from_yaw, from_pitch, to_position, to_yaw, to_pitch,
    duration, elapsed := 0, easing }

/-- `CameraAnimation::advance` from camera.rs. -/
def CameraAnimation.advance (a : CameraAnimation) (dt : ℚ) : CameraAnimation :=
  { a with elapsed := min (a.elapsed + dt) a.duration }

/-- `CameraAnimation::is_complete` from camera.rs. -/
def CameraAnimation.is_complete (a : CameraAnimation) : Bool :=
  a.elapsed ≥ a.duration

/-- `glam::Vec3::lerp`: `a + (b - a) * t` componentwise. -/
def Vec3Q.lerp (a b : Vec3Q) (t : ℚ) : Vec3Q :=
  ⟨a.x + (b.x - a.x) * t, a.y + (b.y - a.y) * t, a.z + (b.z - a.z) * t⟩

/-- `CameraAnimation::position_at` from camera.rs. -/
def CameraAnimation.position_at (a : CameraAnimation) (t : ℚ) : Vec3Q :=
  a.from_position.lerp a.to_position (a.easing (min (max t 0) 1))

/-- `CameraAnimation::interpolate` from camera.rs. -/
def CameraAnimation.interpolate (a : CameraAnimation) : Vec3Q × ℚ × ℚ :=
  let t := if a.duration > 0 then a.easing (a.elapsed / a.duration) else 1
  (a.from_position.lerp a.to_position t,
   a.from_yaw + (a.to_yaw - a.from_yaw) * t,
   a.from_pitch + (a.to_pitch - a.from_pitch) * t)

/-! ## Chunk manager (chunk_manager.rs) -/

/-- `StreamingState` from chunk_manager.rs. -/
inductive StreamingState where
  | Idle
  | Loading
  | Stalled
deriving DecidableEq, Repr

/-- `StreamingState::from_counts` from chunk_manager.rs. -/
def StreamingState.from_counts (pending loaded_this_tick : ℕ) : StreamingState :=
  if pending = 0 then .Idle
  else if loaded_this_tick > 0 then .Loading
  else .Stalled

/-- `TickStats` from chunk_manager.rs. -/
structure TickStats where
  loaded_this_tick : ℕ
  unloaded_this_tick : ℕ
  pending_count : ℕ
  total_loaded : ℕ
  total_visible : ℕ
  cached_count : ℕ
  budget : ℕ
  streaming_state : StreamingState
deriving DecidableEq, Repr

/-- `LoadedChunk` from chunk_manager.rs. -/
structure LoadedChunk where
  slot : ℕ
  collision : Option CollisionMap
  terrain : Option TerrainGrid

/-- `ChunkManager` from chunk_manager.rs. The `HashMap` of loaded chunks
is embedded as an association list with distinct keys (lookup is by key;
iteration order is the list order); the pure `wgpu` handles are dropped.
`GridInfo` computation is omitted: no claim concerns it. -/
structure ChunkManager where
  atlas : ChunkAtlas
  loaded : List (IVec3 × LoadedChunk)
  visible : List IVec3
  chunk_gen : IVec3 → Chunk
  view_distance : ℕ
  atlas_slots : UVec3

/-- `ChunkManager::with_chunk_gen` from chunk_manager.rs (the
`atlas_slots ≥ 2*view_distance+1` assertion is carried by `Reachable`). -/
def ChunkManager.with_chunk_gen (view_distance : ℕ) (atlas_slots : UVec3)
    (chunk_gen : IVec3 → Chunk) : ChunkManager :=
  { atlas := ChunkAtlas.new atlas_slots
    loaded := []
    visible := []
    chunk_gen
    view_distance
    atlas_slots }

/-- `HashMap::contains_key` on the residency map. -/
def ChunkManager.contains_key (m : ChunkManager) (c : IVec3) : Bool :=
  m.loaded.any (fun p => p.1 == c)

/-- `ChunkManager::is_loaded` from chunk_manager.rs. -/
def ChunkManager.is_loaded (m : ChunkManager) (c : IVec3) : Bool :=
  m.contains_key c

/-- `ChunkManager::load_chunk` from chunk_manager.rs: no-op when already
loaded; otherwise evict any occupant of the modular slot, generate, and
either record an empty chunk without upload or upload and record the
derived collision map and terrain grid. -/
def ChunkManager.load_chunk (m : ChunkManager) (coord : IVec3) : ChunkManager :=
  if m.loaded.any (fun p => p.1 == coord) then m
  else
    let slot := world_to_slot coord m.atlas_slots
    let occupant := (m.loaded.find? (fun p => p.2.slot == slot)).map (fun p => p.1)
    let m1 :=
      match occupant with
      | some old_coord =>
        { m with loaded := m.loaded.filter (fun p => p.1 != old_coord)
                 atlas := m.atlas.clear_slot slot }
      | none => m
    let chunk := m.chunk_gen coord
    if chunk.is_empty then
      { m1 with loaded := (coord, ⟨slot, none, none⟩) :: m1.loaded }
    else
      { m1 with
        atlas := m1.atlas.upload_chunk slot coord
        loaded := (coord, ⟨slot, some (CollisionMap.from_voxels chunk.voxels),
                           some (TerrainGrid.from_chunk chunk)⟩) :: m1.loaded }

/-- `ChunkManager::unload_chunk` from chunk_manager.rs. -/
def ChunkManager.unload_chunk (m : ChunkManager) (coord : IVec3) : ChunkManager :=
  match m.loaded.find? (fun p => p.1 == coord) with
  | some p =>
    { m with loaded := m.loaded.filter (fun q => q.1 != coord)
             atlas := m.atlas.clear_slot p.2.slot }
  | none => m

/-- `ChunkManager::is_solid` from chunk_manager.rs: floor to voxel
coordinates, split into chunk (Euclidean quotient) and local (Euclidean
remainder), consult the loaded chunk's collision map. -/
def ChunkManager.is_solid (m : ChunkManager) (world_pos : Vec3Q) : Bool :=
  let chunk_size : ℤ := (CHUNK_SIZE : ℕ)
  let vx : ℤ := ⌊world_pos.x⌋
  let vy : ℤ := ⌊world_pos.y⌋
  let vz : ℤ := ⌊world_pos.z⌋
  let chunk_coord : IVec3 :=
    ⟨vx.ediv chunk_size, vy.ediv chunk_size, vz.ediv chunk_size⟩
  let local_x := vx.emod chunk_size
  let local_y := vy.emod chunk_size
  let local_z := vz.emod chunk_size
  match m.loaded.find? (fun p => p.1 == chunk_coord) with
  | some p =>
    match p.2.collision with
    | some cm => cm.is_solid local_x local_y local_z
    | none => false
  | none => false

/-- Inclusive integer range `lo..=hi` as a list. -/
def intRangeIncl (lo hi : ℤ) : List ℤ :=
  (List.range (hi + 1 - lo).toNat).map (fun i => lo + i)

/-- `ChunkManager::compute_visible_set` from chunk_manager.rs: the
`(2d+1)³` cube of chunk coordinates centred on `floor(pos / 32)`,
enumerated Z-major, then Y, then X. -/
def ChunkManager.compute_visible_set (camera_pos : Vec3Q) (view_distance : ℕ) :
    List IVec3 :=
  let chunk_size : ℚ := (CHUNK_SIZE : ℕ)
  let cam_chunk : IVec3 :=
    ⟨⌊camera_pos.x / chunk_size⌋, ⌊camera_pos.y / chunk_size⌋, ⌊camera_pos.z / chunk_size⌋⟩
  let range : ℤ := view_distance
  (intRangeIncl (cam_chunk.z - range) (cam_chunk.z + range)).flatMap (fun z =>
    (intRangeIncl (cam_chunk.y - range) (cam_chunk.y + range)).flatMap (fun y =>
      (intRangeIncl (cam_chunk.x - range) (cam_chunk.x + range)).map (fun x =>
        ⟨x, y, z⟩)))

/-- `ChunkManager::prediction_chunks` from chunk_manager.rs: sample the
animation at `t ∈ {0.25, 0.5, 0.75, 1.0}`, take the vd=1 cube around
each sample, deduplicated keeping first occurrences. -/
def ChunkManager.prediction_chunks (animation : CameraAnimation) : List IVec3 :=
  let samples : List ℚ := [1/4, 1/2, 3/4, 1]
  (samples.flatMap
      (fun t => ChunkManager.compute_visible_set (animation.position_at t) 1)).foldl
    (fun result c => if result.any (fun d => d == c) then result else result ++ [c])
    []

/-- The per-coordinate body of the budgeted loading loop in
`tick_budgeted_with_prediction`, over the processed prefix: counts
processed coordinates and eviction events, threading `load_chunk`. -/
def ChunkManager.processLoads (m : ChunkManager) : List IVec3 → ChunkManager × ℕ × ℕ
  | [] => (m, 0, 0)
  | coord :: rest =>
    let slot := world_to_slot coord m.atlas_slots
    let will_evict := m.loaded.any (fun p => p.2.slot == slot && p.1 != coord)
    let m1 := m.load_chunk coord
    let r := m1.processLoads rest
    (r.1, r.2.1 + 1, if will_evict then r.2.2 + 1 else r.2.2)

/-- Squared chunk-space distance sort key from
`tick_budgeted_with_prediction`. -/
def distKey (cam_chunk c : IVec3) : ℤ :=
  (c.x - cam_chunk.x) * (c.x - cam_chunk.x) +
  (c.y - cam_chunk.y) * (c.y - cam_chunk.y) +
  (c.z - cam_chunk.z) * (c.z - cam_chunk.z)

/-- `ChunkManager::tick_budgeted_with_prediction` from chunk_manager.rs
(returning the updated manager and the tick statistics; the `GridInfo`
part of `TickResult` is omitted — no claim concerns it). -/
def ChunkManager.tick_budgeted_with_prediction (m : ChunkManager)
    (camera_pos : Vec3Q) (budget : ℕ) (animation : Option CameraAnimation) :
    ChunkManager × TickStats :=
  let visible := ChunkManager.compute_visible_set camera_pos m.view_distance
  let m0 := { m with visible := visible }
  let chunk_size : ℚ := (CHUNK_SIZE : ℕ)
  let cam_chunk : IVec3 :=
    ⟨⌊camera_pos.x / chunk_size⌋, ⌊camera_pos.y / chunk_size⌋, ⌊camera_pos.z / chunk_size⌋⟩
  let to_load1 :=
    (visible.filter (fun c => !(m0.loaded.any (fun p => p.1 == c)))).mergeSort
      (fun a b => distKey cam_chunk a ≤ distKey cam_chunk b)
  let visible_pending := to_load1.length
  let to_load :=
    match animation with
    | some anim =>
      (ChunkManager.prediction_chunks anim).foldl
        (fun (acc : List IVec3) (c : IVec3) =>
          if !(m0.loaded.any (fun p => p.1 == c)) && !(acc.any (fun d => d == c)) then
            acc ++ [c]
          else acc)
        to_load1
    | none => to_load1
  let res := m0.processLoads (to_load.take budget)
  let loaded_this_tick := res.2.1
  let unloaded_this_tick := res.2.2
  let pending_count := visible_pending - loaded_this_tick
  let total_loaded := res.1.loaded.length
  let total_visible := res.1.visible.length
  let cached_count := total_loaded - total_visible
  (res.1,
   { loaded_this_tick
     unloaded_this_tick
     pending_count
     total_loaded
     total_visible
     cached_count
     budget
     streaming_state := StreamingState.from_counts pending_count loaded_this_tick })

/-- `ChunkManager::tick_budgeted` from chunk_manager.rs. -/
def ChunkManager.tick_budgeted (m : ChunkManager) (camera_pos : Vec3Q) (budget : ℕ) :
    ChunkManager × TickStats :=
  m.tick_budgeted_with_prediction camera_pos budget none

/-- A concrete manager configuration used by witnesses: atlas `(8,8,8)`,
view distance 0, a generator producing empty chunks. -/
def emptyGenManager : ChunkManager :=
  ChunkManager.with_chunk_gen 0 ⟨8, 8, 8⟩ (fun _ => Chunk.mk [])

/-- C10: calling `load_chunk` on an already-loaded coordinate leaves the
whole manager state unchanged (no eviction, no generation, no atlas
write). -/
theorem C10_load_chunk_idempotent (m : ChunkManager) (c : IVec3)
    (h : m.is_loaded c = true) : m.load_chunk c = m := by
  rw [ChunkManager.is_loaded, ChunkManager.contains_key] at h
  rw [ChunkManager.load_chunk, if_pos h]

/-- Witness for C10 at a concrete input: a manager with `(0,0,0)` loaded. -/
theorem C10_load_chunk_idempotent_witness :
    (emptyGenManager.load_chunk ⟨0, 0, 0⟩).is_loaded ⟨0, 0, 0⟩ = true ∧
    (emptyGenManager.load_chunk ⟨0, 0, 0⟩).load_chunk ⟨0, 0, 0⟩ =
      emptyGenManager.load_chunk ⟨0, 0, 0⟩ := by
  have h : (emptyGenManager.load_chunk ⟨0, 0, 0⟩).is_loaded ⟨0, 0, 0⟩ = true := rfl
  exact ⟨h, C10_load_chunk_idempotent _ _ h⟩

lemma processLoads_loaded_count (m : ChunkManager) (l : List IVec3) :
    (m.processLoads l).2.1 = l.length := by
  induction l generalizing m with
  | nil => rfl
  | cons c rest ih =>
    simp only [ChunkManager.processLoads, List.length_cons, ih]

/-- C2: every budgeted tick loads at most `budget` chunks; the reported
`pending_count` is the count of visible-but-unloaded coordinates at tick
start minus `loaded_this_tick`, truncated at zero (prediction chunks not
counted); and `streaming_state` is Idle / Loading / Stalled exactly per
the pending and loaded counts. -/
theorem C2_tick_budget_pending_state (m : ChunkManager) (camera_pos : Vec3Q)
    (budget : ℕ) (animation : Option CameraAnimation) :
    (m.tick_budgeted_with_prediction camera_pos budget animation).2.loaded_this_tick
        ≤ budget ∧
    (m.tick_budgeted_with_prediction camera_pos budget animation).2.pending_count =
      ((ChunkManager.compute_visible_set camera_pos m.view_distance).filter
          (fun c => !(m.loaded.any (fun p => p.1 == c)))).length -
        (m.tick_budgeted_with_prediction camera_pos budget animation).2.loaded_this_tick ∧
    (m.tick_budgeted_with_prediction camera_pos budget animation).2.streaming_state =
      (if (m.tick_budgeted_with_prediction camera_pos budget animation).2.pending_count
          = 0 then
        StreamingState.Idle
       else if (m.tick_budgeted_with_prediction camera_pos budget
          animation).2.loaded_this_tick > 0 then
        StreamingState.Loading
       else StreamingState.Stalled) := by
  simp only [ChunkManager.tick_budgeted_with_prediction, StreamingState.from_counts]
  refine ⟨?_, ?_, trivial⟩
  · rw [processLoads_loaded_count, List.length_take]
    exact min_le_left _ _
  · rw [List.length_mergeSort]

/-! ## Residency invariant (C9, C1) -/

/-- The residency invariant over the association list: distinct keys,
every record's slot is the modular slot of its coordinate, and distinct
coordinates never share a slot. -/
def LoadedInv (loaded : List (IVec3 × LoadedChunk)) (S : UVec3) : Prop :=
  (loaded.map Prod.fst).Nodup ∧
  (∀ p ∈ loaded, p.2.slot = world_to_slot p.1 S) ∧
  ∀ p ∈ loaded, ∀ q ∈ loaded, p.1 ≠ q.1 → p.2.slot ≠ q.2.slot

/-- The residency invariant of a manager state. -/
def SlotInvariant (m : ChunkManager) : Prop :=
  LoadedInv m.loaded m.atlas_slots

lemma LoadedInv.filter (loaded : List (IVec3 × LoadedChunk)) (S : UVec3)
    (f : IVec3 × LoadedChunk → Bool) (h : LoadedInv loaded S) :
    LoadedInv (loaded.filter f) S := by
  obtain ⟨h1, h2, h3⟩ := h
  refine ⟨h1.sublist ((List.filter_sublist _).map Prod.fst), ?_, ?_⟩
  · intro p hp
    exact h2 p (List.mem_of_mem_filter hp)
  · intro p hp q hq hne
    exact h3 p (List.mem_of_mem_filter hp) q (List.mem_of_mem_filter hq) hne

lemma LoadedInv.cons (loaded1 : List (IVec3 × LoadedChunk)) (S : UVec3)
    (c : IVec3) (rec : LoadedChunk)
    (hslot : rec.slot = world_to_slot c S)
    (hkeys : ∀ p ∈ loaded1, p.1 ≠ c)
    (hnoslot : ∀ p ∈ loaded1, p.2.slot ≠ rec.slot)
    (hinv : LoadedInv loaded1 S) :
    LoadedInv ((c, rec) :: loaded1) S := by
  obtain ⟨h1, h2, h3⟩ := hinv
  refine ⟨?_, ?_, ?_⟩
  · rw [List.map_cons]
    refine List.Nodup.cons ?_ h1
    intro hmem
    obtain ⟨p, hp, hpc⟩ := List.mem_map.mp hmem
    exact hkeys p hp hpc
  · intro p hp
    rcases List.mem_cons.mp hp with rfl | hp'
    · exact hslot
    · exact h2 p hp'
  · intro p hp q hq hne
    rcases List.mem_cons.mp hp with rfl | hp' <;>
      rcases List.mem_cons.mp hq with rfl | hq'
    · exact absurd rfl hne
    · exact fun hs => hnoslot q hq' hs.symm
    · exact hnoslot p hp'
    · exact h3 p hp' q hq' hne

lemma any_key_eq_false_iff (loaded : List (IVec3 × LoadedChunk)) (c : IVec3) :
    loaded.any (fun p => p.1 == c) = false ↔ ∀ p ∈ loaded, p.1 ≠ c := by
  rw [← Bool.not_eq_true, List.any_eq_true]
  constructor
  · intro h p hp hpc
    exact h ⟨p, hp, beq_iff_eq.mpr hpc⟩
  · intro h hex
    obtain ⟨p, hp, hpb⟩ := hex
    exact h p hp (beq_iff_eq.mp hpb)

lemma SlotInvariant.load_chunk (m : ChunkManager) (c : IVec3)
    (h : SlotInvariant m) : SlotInvariant (m.load_chunk c) := by
  rw [ChunkManager.load_chunk]
  by_cases hc : m.loaded.any (fun p => p.1 == c) = true
  · rw [if_pos hc]; exact h
  · rw [if_neg (by simp [hc])]
    have hc' : ∀ p ∈ m.loaded, p.1 ≠ c :=
      (any_key_eq_false_iff m.loaded c).mp (Bool.not_eq_true _ ▸ hc)
    obtain ⟨h1, h2, h3⟩ := h
    rcases hfind : m.loaded.find? (fun p => p.2.slot == world_to_slot c m.atlas_slots)
      with _ | pr
    · -- no occupant of the slot
      have hnoslot : ∀ p ∈ m.loaded, p.2.slot ≠ world_to_slot c m.atlas_slots := by
        intro p hp
        have := List.find?_eq_none.mp hfind p hp
        simpa using this
      simp only [hfind, Option.map_none]
      split <;>
        exact LoadedInv.cons _ _ _ _ rfl hc' hnoslot ⟨h1, h2, h3⟩
    · -- the first occupant is evicted
      have hprmem : pr ∈ m.loaded := List.mem_of_find?_eq_some hfind
      have hprslot : pr.2.slot = world_to_slot c m.atlas_slots := by
        have := List.find?_some hfind
        simpa using this
      have hfilters :
          LoadedInv (m.loaded.filter (fun p => p.1 != pr.1)) m.atlas_slots :=
        LoadedInv.filter _ _ _ ⟨h1, h2, h3⟩
      have hkeys : ∀ p ∈ m.loaded.filter (fun p => p.1 != pr.1), p.1 ≠ c :=
        fun p hp => hc' p (List.mem_of_mem_filter hp)
      have hnoslot : ∀ p ∈ m.loaded.filter (fun p => p.1 != pr.1),
          p.2.slot ≠ world_to_slot c m.atlas_slots := by
        intro p hp hps
        have hpmem := List.mem_of_mem_filter hp
        have hpne : p.1 ≠ pr.1 := by
          have := (List.mem_filter.mp hp).2
          simpa using this
        exact h3 p hpmem pr hprmem hpne (hps.trans hprslot.symm)
      simp only [hfind, Option.map_some]
      split <;>
        exact LoadedInv.cons _ _ _ _ rfl hkeys hnoslot hfilters

lemma SlotInvariant.unload_chunk (m : ChunkManager) (c : IVec3)
    (h : SlotInvariant m) : SlotInvariant (m.unload_chunk c) := by
  rw [ChunkManager.unload_chunk]
  rcases hfind : m.loaded.find? (fun p => p.1 == c) with _ | pr
  · simp only [hfind]
    exact h
  · simp only [hfind]
    exact LoadedInv.filter _ _ _ h

lemma SlotInvariant.processLoads (m : ChunkManager) (l : List IVec3)
    (h : SlotInvariant m) : SlotInvariant (m.processLoads l).1 := by
  induction l generalizing m with
  | nil => exact h
  | cons c rest ih =>
    simp only [ChunkManager.processLoads]
    exact ih _ (h.load_chunk m c)

lemma SlotInvariant.tick (m : ChunkManager) (camera_pos : Vec3Q) (budget : ℕ)
    (animation : Option CameraAnimation) (h : SlotInvariant m) :
    SlotInvariant (m.tick_budgeted_with_prediction camera_pos budget animation).1 := by
  simp only [ChunkManager.tick_budgeted_with_prediction]
  exact SlotInvariant.processLoads _ _ h

/-- The manager states reachable from construction by `load_chunk`,
`unload_chunk`, and budgeted ticks (construction carries the source's
`atlas_slots ≥ 2*view_distance+1` assertion). -/
inductive Reachable : ChunkManager → Prop where
  | new (view_distance : ℕ) (atlas_slots : UVec3) (chunk_gen : IVec3 → Chunk)
      (h : 2 * view_distance + 1 ≤ atlas_slots.x ∧
           2 * view_distance + 1 ≤ atlas_slots.y ∧
           2 * view_distance + 1 ≤ atlas_slots.z) :
      Reachable (ChunkManager.with_chunk_gen view_distance atlas_slots chunk_gen)
  | load (m : ChunkManager) (c : IVec3) :
      Reachable m → Reachable (m.load_chunk c)
  | unload (m : ChunkManager) (c : IVec3) :
      Reachable m → Reachable (m.unload_chunk c)
  | tick (m : ChunkManager) (camera_pos : Vec3Q) (budget : ℕ)
      (animation : Option CameraAnimation) :
      Reachable m → Reachable (m.tick_budgeted_with_prediction camera_pos budget
        animation).1

lemma slotInvariant_of_reachable (m : ChunkManager) (h : Reachable m) :
    SlotInvariant m := by
  induction h with
  | new vd S gen hS =>
    exact ⟨List.nodup_nil, fun p hp => absurd hp (List.not_mem_nil p),
      fun p hp => absurd hp (List.not_mem_nil p)⟩
  | load m c _ ih => exact ih.load_chunk m c
  | unload m c _ ih => exact ih.unload_chunk m c
  | tick m p b a _ ih => exact ih.tick m p b a

/-- C9: in every reachable manager state, each loaded record's stored
slot is `world_to_slot` of its coordinate, and no two distinct loaded
coordinates share a slot. -/
theorem C9_residency_slot_invariant (m : ChunkManager) (h : Reachable m) :
    (∀ p ∈ m.loaded, p.2.slot = world_to_slot p.1 m.atlas_slots) ∧
    ∀ p ∈ m.loaded, ∀ q ∈ m.loaded, p.1 ≠ q.1 → p.2.slot ≠ q.2.slot :=
  ⟨(slotInvariant_of_reachable m h).2.1, (slotInvariant_of_reachable m h).2.2⟩

/-- Witness for C9 at a concrete input: the manager reached by one
`load_chunk` from construction. -/
theorem C9_residency_slot_invariant_witness :
    Reachable (emptyGenManager.load_chunk ⟨0, 0, 0⟩) ∧
    ((∀ p ∈ (emptyGenManager.load_chunk ⟨0, 0, 0⟩).loaded,
        p.2.slot = world_to_slot p.1 (emptyGenManager.load_chunk ⟨0, 0, 0⟩).atlas_slots) ∧
      ∀ p ∈ (emptyGenManager.load_chunk ⟨0, 0, 0⟩).loaded,
        ∀ q ∈ (emptyGenManager.load_chunk ⟨0, 0, 0⟩).loaded,
          p.1 ≠ q.1 → p.2.slot ≠ q.2.slot) := by
  have hr : Reachable (emptyGenManager.load_chunk ⟨0, 0, 0⟩) :=
    Reachable.load _ _
      (Reachable.new 0 ⟨8, 8, 8⟩ (fun _ => Chunk.mk [])
        ⟨by norm_num, by norm_num, by norm_num⟩)
  exact ⟨hr, C9_residency_slot_invariant _ hr⟩

/-- C1: in any state satisfying the residency invariant, loading `c2`
whose modular slot equals that of a distinct loaded `c1` evicts `c1`:
afterwards `c2` is loaded and `c1` is not. -/
theorem C1_slot_collision_eviction (m : ChunkManager) (c1 c2 : IVec3)
    (hinv : SlotInvariant m) (hne : c1 ≠ c2)
    (hslot : world_to_slot c1 m.atlas_slots = world_to_slot c2 m.atlas_slots)
    (hl : m.is_loaded c1 = true) :
    (m.load_chunk c2).is_loaded c2 = true ∧
    (m.load_chunk c2).is_loaded c1 = false := by
  obtain ⟨h1, h2, h3⟩ := hinv
  rw [ChunkManager.is_loaded, ChunkManager.contains_key] at hl
  obtain ⟨p1, hp1, hp1beq⟩ := List.any_eq_true.mp hl
  have hp1c : p1.1 = c1 := beq_iff_eq.mp hp1beq
  have hp1slot : p1.2.slot = world_to_slot c2 m.atlas_slots := by
    rw [h2 p1 hp1, hp1c, hslot]
  have hc2 : ¬(m.loaded.any (fun p => p.1 == c2) = true) := by
    intro hany
    obtain ⟨p2, hp2, hp2beq⟩ := List.any_eq_true.mp hany
    have hp2c : p2.1 = c2 := beq_iff_eq.mp hp2beq
    have hne12 : p1.1 ≠ p2.1 := by rw [hp1c, hp2c]; exact hne
    exact h3 p1 hp1 p2 hp2 hne12
      (by rw [hp1slot, h2 p2 hp2, hp2c])
  rw [ChunkManager.load_chunk, if_neg (by simpa using hc2)]
  rcases hfind : m.loaded.find? (fun p => p.2.slot == world_to_slot c2 m.atlas_slots)
    with _ | pr
  · exact absurd (List.find?_eq_none.mp hfind p1 hp1) (by simp [hp1slot])
  · have hprmem : pr ∈ m.loaded := List.mem_of_find?_eq_some hfind
    have hprslot : pr.2.slot = world_to_slot c2 m.atlas_slots := by
      have := List.find?_some hfind
      simpa using this
    have hprc1 : pr.1 = c1 := by
      by_contra hprc
      have : p1.1 ≠ pr.1 := by rw [hp1c]; exact fun hcc => hprc hcc.symm
      exact h3 p1 hp1 pr hprmem this (by rw [hp1slot, hprslot])
    simp only [hfind, Option.map_some]
    constructor
    · rw [ChunkManager.is_loaded, ChunkManager.contains_key]
      split <;> simp
    · rw [ChunkManager.is_loaded, ChunkManager.contains_key]
      have htail : ∀ p ∈ m.loaded.filter (fun p => p.1 != pr.1), (p.1 == c1) = false := by
        intro p hp
        have := (List.mem_filter.mp hp).2
        rw [hprc1] at this
        simpa using (by simpa using this : p.1 ≠ c1)
      split <;>
      · rw [List.any_cons]
        simp only [Bool.or_eq_false_iff]
        refine ⟨by simpa using hne.symm, ?_⟩
        rw [List.any_eq_false]
        intro p hp
        simp [htail p hp]

/-- Witness for C1 at the spec's S1 scenario: atlas `(8,8,8)`, `(0,0,0)`
loaded, then `(8,0,0)` loaded onto the same modular slot. -/
theorem C1_slot_collision_eviction_witness :
    SlotInvariant (emptyGenManager.load_chunk ⟨0, 0, 0⟩) ∧
    ((emptyGenManager.load_chunk ⟨0, 0, 0⟩).load_chunk ⟨8, 0, 0⟩).is_loaded ⟨8, 0, 0⟩
        = true ∧
    ((emptyGenManager.load_chunk ⟨0, 0, 0⟩).load_chunk ⟨8, 0, 0⟩).is_loaded ⟨0, 0, 0⟩
        = false := by
  have hinv : SlotInvariant (emptyGenManager.load_chunk ⟨0, 0, 0⟩) := by
    refine ⟨by decide, ?_, ?_⟩ <;> decide
  have h := C1_slot_collision_eviction (emptyGenManager.load_chunk ⟨0, 0, 0⟩)
    ⟨0, 0, 0⟩ ⟨8, 0, 0⟩ hinv (by decide) (by decide) (by decide)
  exact ⟨hinv, h.1, h.2⟩

/-! ## Motion layer collision rejection (C3) -/

/-- `CollisionMap::crosses_voxel_boundary` from collision.rs: the floored
voxel coordinates differ in some component. -/
def crosses_voxel_boundary (old_pos new_pos : Vec3Q) : Bool :=
  (⟨⌊old_pos.x⌋, ⌊old_pos.y⌋, ⌊old_pos.z⌋⟩ : IVec3) !=
    ⟨⌊new_pos.x⌋, ⌊new_pos.y⌋, ⌊new_pos.z⌋⟩

/-- The collision rejection the motion layer applies after every camera
move (render/mod.rs: the manual per-frame update in `render`, `scroll`,
and `pan` all share it): the stored position reverts to `old_pos` when
the move crosses a voxel boundary into solid space, and is `new_pos`
otherwise. -/
def resolveMovement (m : ChunkManager) (old_pos new_pos : Vec3Q) : Vec3Q :=
  if crosses_voxel_boundary old_pos new_pos && m.is_solid new_pos then old_pos
  else new_pos

/-- C3: a camera move that crosses a voxel boundary into a solid voxel is
rejected (the stored position stays `old_pos`); a move that stays inside
the same voxel is applied regardless of solidity. -/
theorem C3_motion_collision_rejection (m : ChunkManager) (old_pos new_pos : Vec3Q) :
    (crosses_voxel_boundary old_pos new_pos = true → m.is_solid new_pos = true →
      resolveMovement m old_pos new_pos = old_pos) ∧
    (crosses_voxel_boundary old_pos new_pos = false →
      resolveMovement m old_pos new_pos = new_pos) := by
  constructor
  · intro h1 h2
    rw [resolveMovement, if_pos (by rw [h1, h2]; exact rfl)]
  · intro h1
    rw [resolveMovement, if_neg (by rw [h1]; simp)]

/-- A manager whose generator produces a single stone voxel, used by the
C3 witness. -/
def solidGenManager : ChunkManager :=
  ChunkManager.with_chunk_gen 0 ⟨8, 8, 8⟩ (fun _ => Chunk.mk [pack_voxel 3 0 0 0])

/-- Witness for C3 at concrete inputs: a move from voxel `(1,0,0)` into
the solid voxel `(0,0,0)` is rejected; a move inside voxel `(0,0,0)` is
applied. -/
theorem C3_motion_collision_rejection_witness :
    (crosses_voxel_boundary ⟨3/2, 1/2, 1/2⟩ ⟨1/2, 1/2, 1/2⟩ = true ∧
      (solidGenManager.load_chunk ⟨0, 0, 0⟩).is_solid ⟨1/2, 1/2, 1/2⟩ = true ∧
      resolveMovement (solidGenManager.load_chunk ⟨0, 0, 0⟩)
        ⟨3/2, 1/2, 1/2⟩ ⟨1/2, 1/2, 1/2⟩ = ⟨3/2, 1/2, 1/2⟩) ∧
    (crosses_voxel_boundary ⟨1/4, 1/2, 1/2⟩ ⟨1/2, 1/2, 1/2⟩ = false ∧
      resolveMovement (solidGenManager.load_chunk ⟨0, 0, 0⟩)
        ⟨1/4, 1/2, 1/2⟩ ⟨1/2, 1/2, 1/2⟩ = ⟨1/2, 1/2, 1/2⟩) := by
  have hf12 : ⌊(1/2 : ℚ)⌋ = 0 := by norm_num
  have hf32 : ⌊(3/2 : ℚ)⌋ = 1 := by norm_num
  have hf14 : ⌊(1/4 : ℚ)⌋ = 0 := by norm_num
  have hcross : crosses_voxel_boundary ⟨3/2, 1/2, 1/2⟩ ⟨1/2, 1/2, 1/2⟩ = true := by
    rw [crosses_voxel_boundary]
    rw [hf12, hf32]
    decide
  have hsolid : (solidGenManager.load_chunk ⟨0, 0, 0⟩).is_solid ⟨1/2, 1/2, 1/2⟩ = true := by
    rw [ChunkManager.is_solid]
    rw [hf12]
    decide
  have hnocross : crosses_voxel_boundary ⟨1/4, 1/2, 1/2⟩ ⟨1/2, 1/2, 1/2⟩ = false := by
    rw [crosses_voxel_boundary]
    rw [hf12, hf14]
    decide
  exact ⟨⟨hcross, hsolid,
      (C3_motion_collision_rejection _ _ _).1 hcross hsolid⟩,
    ⟨hnocross, (C3_motion_collision_rejection _ _ _).2 hnocross⟩⟩

/-! ## Camera pose and pitch clamping (camera.rs, render/mod.rs)

Angles flow through `sin`/`cos`/`atan2`, so this side of the camera is
embedded over `ℝ` (idealising `f32` arithmetic); positions here are a
`Vec3R` of reals. -/

/-- `MOVE_SPEED` from camera.rs. -/
def MOVE_SPEED : ℝ := 10

/-- `ROTATE_SPEED` from camera.rs. -/
def ROTATE_SPEED : ℝ := 2

/-- `SPRINT_MULTIPLIER` from camera.rs. -/
def SPRINT_MULTIPLIER : ℝ := 4

/-- `PITCH_LIMIT` from camera.rs: 89 degrees in radians. -/
noncomputable def PITCH_LIMIT : ℝ := 89 * Real.pi / 180

/-- Real-valued 3-vector for the camera pose. -/
structure Vec3R where
  x : ℝ
  y : ℝ
  z : ℝ

/-- `v + w * a` componentwise (`position += dir * amount`). -/
def Vec3R.addScaled (v w : Vec3R) (a : ℝ) : Vec3R :=
  ⟨v.x + w.x * a, v.y + w.y * a, v.z + w.z * a⟩

/-- `v - w * a` componentwise (`position -= dir * amount`). -/
def Vec3R.subScaled (v w : Vec3R) (a : ℝ) : Vec3R :=
  ⟨v.x - w.x * a, v.y - w.y * a, v.z - w.z * a⟩

/-- `InputState` from camera.rs. -/
structure InputState where
  forward : Bool
  backward : Bool
  left : Bool
  right : Bool
  yaw_left : Bool
  yaw_right : Bool
  pitch_up : Bool
  pitch_down : Bool
  sprint : Bool

/-- `Camera` from camera.rs. -/
structure Camera where
  position : Vec3R
  yaw : ℝ
  pitch : ℝ
  fov : ℝ

/-- `Camera::orientation_vectors` from camera.rs. -/
noncomputable def Camera.orientation_vectors (c : Camera) : Vec3R × Vec3R × Vec3R :=
  let sy := Real.sin c.yaw
  let cy := Real.cos c.yaw
  let sp := Real.sin c.pitch
  let cp := Real.cos c.pitch
  (⟨-sy * cp, sp, -cy * cp⟩, ⟨cy, 0, -sy⟩, ⟨sy * sp, cp, cy * sp⟩)

/-- `Camera::clamp_pitch` from camera.rs (`f32::clamp(lo, hi)` is
`min (max x lo) hi`). -/
noncomputable def Camera.clamp_pitch (c : Camera) : Camera :=
  { c with pitch := min (max c.pitch (-PITCH_LIMIT)) PITCH_LIMIT }

/-- `Camera::update` from camera.rs: apply translation and rotation per
the active intents, then clamp the pitch. -/
noncomputable def Camera.update (c : Camera) (input : InputState) (dt : ℝ) : Camera :=
  let ov := c.orientation_vectors
  let forward := ov.1
  let right := ov.2.1
  let sprint : ℝ := if input.sprint then SPRINT_MULTIPLIER else 1
  let move_amount := MOVE_SPEED * dt * sprint
  let rot_amount := ROTATE_SPEED * dt * sprint
  let pos1 := if input.forward then c.position.addScaled forward move_amount
    else c.position
  let pos2 := if input.backward then pos1.subScaled forward move_amount else pos1
  let pos3 := if input.left then pos2.subScaled right move_amount else pos2
  let pos4 := if input.right then pos3.addScaled right move_amount else pos3
  let yaw1 := if input.yaw_left then c.yaw - rot_amount else c.yaw
  let yaw2 := if input.yaw_right then yaw1 + rot_amount else yaw1
  let pitch1 := if input.pitch_up then c.pitch + rot_amount else c.pitch
  let pitch2 := if input.pitch_down then pitch1 - rot_amount else pitch1
  Camera.clamp_pitch { c with position := pos4, yaw := yaw2, pitch := pitch2 }

/-- `Camera::apply_look_delta` from camera.rs. -/
noncomputable def Camera.apply_look_delta (c : Camera) (dyaw dpitch : ℝ) : Camera :=
  Camera.clamp_pitch { c with yaw := c.yaw + dyaw, pitch := c.pitch + dpitch }

/-- `f32::atan2` (the two-argument arctangent). -/
noncomputable def atan2 (y x : ℝ) : ℝ :=
  if 0 < x then Real.arctan (y / x)
  else if x < 0 then
    if 0 ≤ y then Real.arctan (y / x) + Real.pi else Real.arctan (y / x) - Real.pi
  else if 0 < y then Real.pi / 2
  else if y < 0 then -(Real.pi / 2)
  else 0

/-- `Camera::look_at` from camera.rs. -/
noncomputable def Camera.look_at (c : Camera) (target : Vec3R) : Camera :=
  let dir : Vec3R := ⟨target.x - c.position.x, target.y - c.position.y,
    target.z - c.position.z⟩
  Camera.clamp_pitch
    { c with
      yaw := atan2 (-dir.x) (-dir.z)
      pitch := atan2 dir.y (Real.sqrt (dir.x * dir.x + dir.z * dir.z)) }

/-- The camera-and-animation part of the `Renderer` state
(render/mod.rs). -/
structure RendererCamera where
  camera : Camera
  animation : Option CameraAnimation

/-- `Renderer::set_camera` from render/mod.rs: cancel any animation,
snap the pose, clamp the pitch. -/
noncomputable def RendererCamera.set_camera (r : RendererCamera)
    (x y z yaw pitch : ℝ) : RendererCamera :=
  { animation := none
    camera := Camera.clamp_pitch
      { r.camera with position := ⟨x, y, z⟩, yaw := yaw, pitch := pitch } }

/-- The animation branch of `Renderer::render` (render/mod.rs lines
174–183): advance the animation, copy its interpolated pose into the
camera — with no pitch clamp — and drop the animation when complete. -/
noncomputable def RendererCamera.apply_animation_frame (r : RendererCamera)
    (anim : CameraAnimation) (dt : ℚ) : RendererCamera :=
  let anim1 := anim.advance dt
  let p := anim1.interpolate
  { camera := { r.camera with
      position := ⟨(p.1.x : ℝ), (p.1.y : ℝ), (p.1.z : ℝ)⟩
      yaw := (p.2.1 : ℝ)
      pitch := (p.2.2 : ℝ) }
    animation := if anim1.is_complete then none else some anim1 }

lemma pitch_limit_nonneg : (0 : ℝ) ≤ PITCH_LIMIT := by
  rw [PITCH_LIMIT]
  positivity

lemma abs_clamped_pitch_le (x : ℝ) :
    |min (max x (-PITCH_LIMIT)) PITCH_LIMIT| ≤ PITCH_LIMIT := by
  rw [abs_le]
  exact ⟨le_min (le_max_right _ _) (neg_le_self pitch_limit_nonneg), min_le_right _ _⟩

/-- C4 (amended): after `update`, `apply_look_delta`, `look_at`, and
`set_camera`, the camera's pitch lies in `[−89°, +89°]` (radians). The
per-frame application of an animation's interpolated pose does not clamp
and is excluded — see the counterexample. -/
theorem C4_pitch_bound_amended :
    (∀ (c : Camera) (input : InputState) (dt : ℝ),
      |(c.update input dt).pitch| ≤ PITCH_LIMIT) ∧
    (∀ (c : Camera) (dyaw dpitch : ℝ),
      |(c.apply_look_delta dyaw dpitch).pitch| ≤ PITCH_LIMIT) ∧
    (∀ (c : Camera) (target : Vec3R), |(c.look_at target).pitch| ≤ PITCH_LIMIT) ∧
    (∀ (r : RendererCamera) (x y z yaw pitch : ℝ),
      |((r.set_camera x y z yaw pitch).camera.pitch)| ≤ PITCH_LIMIT) := by
  refine ⟨fun c input dt => ?_, fun c dyaw dpitch => ?_, fun c target => ?_,
    fun r x y z yaw pitch => ?_⟩ <;>
    exact abs_clamped_pitch_le _

/-- C4 counterexample: the per-frame animation pose application is a
camera mutation that leaves the pitch outside `[−89°, +89°]`. Animating
from pitch 0 to pitch 2 rad over 1 s with linear easing and advancing a
full second stores pitch 2 > 89°·π/180. -/
theorem C4_pitch_bound_counterexample :
    ((RendererCamera.mk ⟨⟨0, 0, 0⟩, 0, 0, 1⟩ none).apply_animation_frame
        (CameraAnimation.new ⟨0, 0, 0⟩ 0 0 ⟨0, 0, 0⟩ 0 2 1 linear_easing)
        1).camera.pitch > PITCH_LIMIT := by
  have hval :
      ((RendererCamera.mk ⟨⟨0, 0, 0⟩, 0, 0, 1⟩ none).apply_animation_frame
        (CameraAnimation.new ⟨0, 0, 0⟩ 0 0 ⟨0, 0, 0⟩ 0 2 1 linear_easing)
        1).camera.pitch = ((2 : ℚ) : ℝ) := by
    rw [RendererCamera.apply_animation_frame]
    simp only [CameraAnimation.new, CameraAnimation.advance, CameraAnimation.interpolate,
      linear_easing]
    norm_num
  rw [hval, PITCH_LIMIT]
  have hpi := Real.pi_le_four
  push_cast
  nlinarith [Real.pi_le_four]

end VoxelEngine
